/-
  Verification of the call-processing backend (api-server / worker / protocol crates)
  against its natural-language specification.

  Shallow embedding conventions:
  * Rust `f32` values that stay finite in every code path relevant to a claim are
    modelled as exact rationals (`ℚ`).  Where IEEE-754 special values (NaN, ±inf)
    are observable — `f32` division by zero and the saturating `as i32` cast —
    floats are modelled by the inductive `FV` below, which follows the IEEE-754
    rules for those operations exactly; finite arithmetic inside `FV` is the
    exact-rational idealisation (no rounding error is modelled; no claim below
    depends on f32 rounding error).
  * Rust `i32` arithmetic is modelled over `ℤ`; wrap-around overflow is not
    modelled and no claim depends on it.
  * `HashMap<K, V>` values are modelled as functions `K → Option V`; `collect`
    from an iterator of pairs keeps the last binding for a key, `remove` erases
    a binding, exactly as in the source.
  * `Uuid` is modelled as an opaque `ℕ`.
-/
import Mathlib

namespace CallAI

/- Batteries marks some `Rat` operations `@[irreducible]`, which blocks the
evaluation of closed rational arithmetic by `decide`; restore the default
reducibility inside this development (the kernel ignores reducibility
attributes, so proofs are unaffected). -/
attribute [local semireducible] Rat.sub Rat.add Rat.mul Rat.inv

/-! ## A small model of IEEE-754 `f32` special-value behaviour -/

/-- A float value: a finite rational, NaN, or a signed infinity. -/
inductive FV where
  | fin (q : ℚ)
  | nan
  | inf
  | ninf
deriving DecidableEq

/-- IEEE-754 multiplication on `FV` (finite arithmetic is exact). -/
def fmul : FV → FV → FV
  | .nan, _ => .nan
  | _, .nan => .nan
  | .fin a, .fin b => .fin (a * b)
  | .fin a, .inf => if a > 0 then .inf else if a < 0 then .ninf else .nan
  | .fin a, .ninf => if a > 0 then .ninf else if a < 0 then .inf else .nan
  | .inf, .fin b => if b > 0 then .inf else if b < 0 then .ninf else .nan
  | .ninf, .fin b => if b > 0 then .ninf else if b < 0 then .inf else .nan
  | .inf, .inf => .inf
  | .inf, .ninf => .ninf
  | .ninf, .inf => .ninf
  | .ninf, .ninf => .inf

/-- IEEE-754 division on `FV` (finite arithmetic is exact):
`x / 0` is NaN for `x = 0` and `±inf` for `x ≠ 0`. -/
def fdiv : FV → FV → FV
  | .nan, _ => .nan
  | _, .nan => .nan
  | .fin a, .fin b =>
      if b = 0 then (if a = 0 then .nan else if a > 0 then .inf else .ninf)
      else .fin (a / b)
  | .fin _, .inf => .fin 0
  | .fin _, .ninf => .fin 0
  | .inf, .fin b => if b < 0 then .ninf else .inf
  | .ninf, .fin b => if b < 0 then .inf else .ninf
  | .inf, _ => .nan
  | .ninf, _ => .nan

/-- Truncation of a rational toward zero (the finite part of Rust's `as i32`). -/
def ratTrunc (q : ℚ) : ℤ := if 0 ≤ q then ⌊q⌋ else ⌈q⌉

/-- Rounding to the nearest integer, ties away from zero (Rust `f32::round`). -/
def ratRound (q : ℚ) : ℤ := if 0 ≤ q then ⌊q + 1/2⌋ else ⌈q - 1/2⌉

/-- Rust's saturating float-to-`i32` cast: NaN maps to 0, infinities saturate,
finite values are truncated toward zero and clamped to the `i32` range. -/
def f32toI32 : FV → ℤ
  | .nan => 0
  | .inf => 2147483647
  | .ninf => -2147483648
  | .fin q => max (-2147483648) (min 2147483647 (ratTrunc q))

/-- Rust `f32::round` lifted to `FV`: NaN and infinities are fixed points. -/
def fround : FV → FV
  | .nan => .nan
  | .inf => .inf
  | .ninf => .ninf
  | .fin q => .fin (ratRound q)

/-- `FV.isFinite` holds for finite values only. -/
def FV.isFinite : FV → Bool
  | .fin _ => true
  | _ => false

/-! ## Data model (protocol crate) -/

/-- `protocol::entity::ParticipantKind`. -/
inductive ParticipantKind where
  | Employee
  | Client
deriving DecidableEq

/-- `protocol::entity::speech_recog::Interval` (`start`/`end` in seconds);
the Rust field `end` is named `stop` here because `end` is a Lean keyword. -/
structure Interval where
  start : ℚ
  stop : ℚ
deriving DecidableEq

/-- `protocol::entity::speech_recog::CallHolds`. -/
structure CallHolds where
  music : List Interval
  silent : List Interval
deriving DecidableEq

/-- `protocol::entity::speech_recog::EmotionKind`. -/
inductive EmotionKind where
  | Neutral
  | Positive
  | Angry
  | Sad
  | Other
deriving DecidableEq

/-- `protocol::entity::speech_recog::SpeechRecognition`. -/
structure SpeechRecognition where
  text : String
  timestamps : Interval
  speaker : ParticipantKind
deriving DecidableEq

/-- `protocol::entity::speech_recog::PhraseTimestamps`. -/
structure PhraseTimestamps where
  client : List Interval
  employee : List Interval
deriving DecidableEq

/-- `protocol::entity::speech_recog::RecognitionData`. -/
structure RecognitionData where
  call_holds : CallHolds
  emotion_recognition_result : List EmotionKind
  phrase_timestamps : PhraseTimestamps
  speech_recognition_result : List SpeechRecognition
deriving DecidableEq

/-- `protocol::db::metrics::CallMetrics`.  The words-per-minute fields are `FV`
because the source can store non-finite f32 values there; every other float
field is finite in all code paths and is modelled as `ℚ`. -/
structure CallMetrics where
  task_id : ℕ
  call_duration : ℚ
  time_to_answer : ℚ
  total_employee_speech : ℚ
  total_client_speech : ℚ
  employee_client_speech_ratio : ℚ
  employee_speech_ratio : ℚ
  client_speech_ratio : ℚ
  call_holds_count : ℤ
  silence_pause_count : ℤ
  total_employee_silence : ℚ
  client_interruptions_count : ℤ
  total_client_interruptions_duration : ℚ
  avg_employee_words_per_min : FV
  avg_client_words_per_min : FV
  script_score : ℤ
  employee_quality_score : ℤ
  emotion_mode : Option EmotionKind
  emotion_start_mode : Option EmotionKind
  emotion_end_mode : Option EmotionKind
deriving DecidableEq

/-! ## Audio metrics engine (`worker/src/domain/audio_metrics.rs`) -/

/-- `OVERLAP_DURATION_EPS` (1.0 s). -/
def OVERLAP_DURATION_EPS : ℚ := 1

/-- `PAUSE_DURATION` (5.0 s). -/
def PAUSE_DURATION : ℚ := 5

/-- `intervals_overlap`. -/
def intervals_overlap (first_interval seconds_interval : Interval) : Bool :=
  decide (first_interval.start < seconds_interval.stop) &&
    decide (seconds_interval.start < first_interval.stop)

/-- `is_interruption`. -/
def is_interruption (employee_interval client_interval : Interval) : Bool :=
  let overlap_start := max employee_interval.start client_interval.start
  let overlap_stop := min employee_interval.stop client_interval.stop
  let overlap_duration := overlap_stop - overlap_start
  decide (employee_interval.start > client_interval.start) &&
    decide (employee_interval.start < client_interval.stop) &&
    decide (overlap_duration ≥ OVERLAP_DURATION_EPS)

/-- `find_interruptions`: for each employee interval the inner loop stops at the
first client interval that makes it an interruption (`break`), modelled by
`List.find?`; returns `(total_interruption_time, interruptions_count)`. -/
def find_interruptions (employee_intervals client_intervals : List Interval) : ℚ × ℤ :=
  employee_intervals.foldl
    (fun acc employee_interval =>
      match client_intervals.find? (fun ci => is_interruption employee_interval ci) with
      | some _ => (acc.1 + (employee_interval.stop - employee_interval.start), acc.2 + 1)
      | none => acc)
    (0, 0)

/-- `time_to_answer`. -/
def time_to_answer (employee_intervals : List Interval) : Option ℚ :=
  if employee_intervals.isEmpty then none
  else employee_intervals.head?.map (fun interval => interval.start)

/-- `total_speech_duration`. -/
def total_speech_duration (intervals : List Interval) : ℚ :=
  (intervals.map (fun interval => interval.stop - interval.start)).sum

/-- `speech_percentage`. -/
def speech_percentage (total_speech total_call_duration : ℚ) : ℚ :=
  if total_call_duration = 0 then 0
  else (total_speech / total_call_duration) * 100

/-- Stable insertion of one element into a list sorted by `le`. -/
def insertBy {α : Type} (le : α → α → Bool) (x : α) : List α → List α
  | [] => [x]
  | y :: ys => if le x y then x :: y :: ys else y :: insertBy le x ys

/-- Stable insertion sort; models Rust's stable `sort_by` (for a total key
comparison, a stable sort's output is uniquely determined, so any stable sort
gives the slice `sort_by` produces). -/
def sortBy {α : Type} (le : α → α → Bool) (l : List α) : List α :=
  l.foldr (insertBy le) []

/-- `count_pauses`; returns `(pause_count, pause_sum)`. -/
def count_pauses (employee_intervals client_intervals : List Interval)
    (holds : CallHolds) : ℤ × ℚ :=
  if employee_intervals.isEmpty || client_intervals.isEmpty then (0, 0)
  else
    let hold_intervals := (holds.music ++ holds.silent).map
      (fun hold => Interval.mk (hold.start - PAUSE_DURATION) (hold.stop + PAUSE_DURATION))
    let hold_intervals := sortBy (fun a b => decide (a.start ≤ b.start)) hold_intervals
    let intervals :=
      employee_intervals.map (fun interval => (ParticipantKind.Employee, interval)) ++
        client_intervals.map (fun interval => (ParticipantKind.Client, interval))
    let intervals := sortBy (fun a b => decide (a.2.start ≤ b.2.start)) intervals
    let final := intervals.foldl
      (fun (st : Option ℚ × ℤ × ℚ) interval =>
        let (previous_end, pause_count, pause_sum) := st
        let (pc, ps) :=
          match previous_end with
          | some e =>
            if (decide (interval.1 = ParticipantKind.Employee) &&
                decide (e < interval.2.start) &&
                decide (interval.2.start - e ≥ PAUSE_DURATION) &&
                !(hold_intervals.any (fun hold => intervals_overlap hold interval.2))) = true
            then (pause_count + 1, pause_sum + (interval.2.start - e))
            else (pause_count, pause_sum)
          | none => (pause_count, pause_sum)
        let pe := if interval.1 = ParticipantKind.Employee then some interval.2.stop else none
        (pe, pc, ps))
      (none, 0, 0)
    (final.2.1, final.2.2)

/-- Splitting a character list at separator characters, keeping empty pieces
(the semantics of Rust's `str::split` and Lean's `String.split`); written by
structural recursion. -/
def splitCharsAux (p : Char → Bool) : List Char → List Char → List (List Char)
  | cur, [] => [cur.reverse]
  | cur, c :: cs =>
      if p c then cur.reverse :: splitCharsAux p [] cs
      else splitCharsAux p (c :: cur) cs

/-- Split a string at characters satisfying `p`. -/
def splitStr (p : Char → Bool) (s : String) : List String :=
  (splitCharsAux p [] s.data).map (fun cs => String.mk cs)

/-- Rust `str::split_whitespace`: split on whitespace, dropping empty pieces. -/
def splitWhitespaceR (s : String) : List String :=
  (splitStr Char.isWhitespace s).filter (fun w => w ≠ "")

/-- The `total_words` fold of `calculate_words_per_minute`: the whitespace
word count over the given speaker's segments. -/
def speaker_word_count (transcriptions : List SpeechRecognition)
    (speaker : ParticipantKind) : ℕ :=
  ((transcriptions.filter (fun t => t.speaker = speaker)).map
    (fun t => (splitWhitespaceR t.text).length)).sum

/-- `calculate_words_per_minute`.  The division is f32 division: with zero
speech time it yields NaN (no words) or `+inf` (some words). -/
def calculate_words_per_minute (transcriptions : List SpeechRecognition)
    (speech_time : ℚ) (speaker : ParticipantKind) : FV :=
  let total_words : ℕ := speaker_word_count transcriptions speaker
  let speech_time_min : ℚ := speech_time / 60
  fdiv (.fin (total_words : ℚ)) (.fin speech_time_min)

/-- `call_emotional_mode`.  The source takes a `max_by_key` over `HashMap`
iteration order, so its tie-break between equally frequent labels is
implementation-defined; this model resolves ties toward the first-occurring
label.  No claim below depends on the tie-break. -/
def call_emotional_mode (emotions : List EmotionKind) : Option EmotionKind :=
  emotions.foldl
    (fun best e =>
      match best with
      | none => some e
      | some b => if emotions.count e > emotions.count b then some e else some b)
    none

/-- `process_metrics`. -/
def process_metrics (recog_data : RecognitionData) : CallMetrics :=
  let silence := count_pauses recog_data.phrase_timestamps.employee
    recog_data.phrase_timestamps.client recog_data.call_holds
  let interruptions := find_interruptions recog_data.phrase_timestamps.employee
    recog_data.phrase_timestamps.client
  let total_employee_speech := total_speech_duration recog_data.phrase_timestamps.employee
  let total_client_speech := total_speech_duration recog_data.phrase_timestamps.client
  let avg_employee_words_per_min := calculate_words_per_minute
    recog_data.speech_recognition_result total_employee_speech ParticipantKind.Employee
  let avg_client_words_per_min := calculate_words_per_minute
    recog_data.speech_recognition_result total_client_speech ParticipantKind.Client
  let call_duration :=
    (((recog_data.phrase_timestamps.client ++ recog_data.phrase_timestamps.employee).map
      (fun interval => interval.stop)).max?).getD 0
  let holds_count := recog_data.call_holds.silent.length + recog_data.call_holds.music.length
  { task_id := 0
    call_duration := call_duration
    time_to_answer := (time_to_answer recog_data.phrase_timestamps.employee).getD 0
    total_employee_speech := total_employee_speech
    total_client_speech := total_client_speech
    employee_client_speech_ratio := speech_percentage total_employee_speech total_client_speech
    employee_speech_ratio := speech_percentage total_employee_speech call_duration
    client_speech_ratio := speech_percentage total_client_speech call_duration
    call_holds_count := (holds_count : ℤ)
    silence_pause_count := silence.1
    total_employee_silence := silence.2
    client_interruptions_count := interruptions.2
    total_client_interruptions_duration := interruptions.1
    avg_employee_words_per_min := fround avg_employee_words_per_min
    avg_client_words_per_min := fround avg_client_words_per_min
    employee_quality_score := 0
    script_score := 0
    emotion_mode := call_emotional_mode recog_data.emotion_recognition_result
    emotion_start_mode := recog_data.emotion_recognition_result.head?
    emotion_end_mode := recog_data.emotion_recognition_result.getLast? }

/-! ## Scoring engine data model (`protocol/src/db/settings.rs`, `task.rs`) -/

/-- `protocol::db::settings::SettingsKind`. -/
inductive SettingsKind where
  | Quality
  | Script
deriving DecidableEq

/-- `protocol::db::settings::Settings`. -/
structure Settings where
  id : ℕ
  project_id : ℕ
  type : SettingsKind
deriving DecidableEq

/-- `protocol::db::settings::SettingsItemKind`. -/
inductive SettingsItemKind where
  | SpeechRateRatio
  | CallHolds
  | SilencePauses
  | Interruptions
  | LackingInfoDict
  | FillerWordsDict
  | SlurredSpeechDict
  | ProfanitySpeechDict
  | Dictionary
deriving DecidableEq

/-- `protocol::db::settings::SettingsItem`. -/
structure SettingsItem where
  id : ℕ
  settings_id : ℕ
  settings_immutable : Bool
  type : SettingsItemKind
  name : String
  score_weight : ℤ
deriving DecidableEq

/-- `protocol::db::settings::SettingsDictItem`. -/
structure SettingsDictItem where
  id : ℕ
  settings_item_id : ℕ
  dictionary_id : ℤ
  contains : Bool
deriving DecidableEq

/-- `protocol::db::task::TaskToDict`. -/
structure TaskToDict where
  task_id : ℕ
  dictionary_id : ℤ
  contains : Bool
deriving DecidableEq

/-- `protocol::entity::settings_metrics::TaskSettingsItemMetric`. -/
structure TaskSettingsItemMetric where
  settings_item : SettingsItem
  score : ℤ
deriving DecidableEq

/-- `protocol::entity::settings_metrics::TaskSettingsMetrics`. -/
structure TaskSettingsMetrics where
  settings : Settings
  total_score : ℤ
  items : List TaskSettingsItemMetric
deriving DecidableEq

/-! ## Scoring engine (`protocol/src/entity/settings_metrics.rs`) -/

/-- `protocol::auxiliary::group_by` with the always-true filter used by the
scoring engine: a `HashMap<K, Vec<T>>` (as `K → Option (List T)`) grouping the
items by key, each group in insertion order; keys with no item are absent. -/
def group_by {K T : Type} [DecidableEq K] (items : List T) (mapper : T → K) :
    K → Option (List T) :=
  items.foldl
    (fun m item => fun k =>
      if k = mapper item then some ((m k).getD [] ++ [item]) else m k)
    (fun _ => none)

/-- `HashMap::remove`, as a map eraser (the removed value is read separately). -/
def mapRemove {K V : Type} [DecidableEq K] (m : K → Option V) (k : K) : K → Option V :=
  fun x => if x = k then none else m x

/-- The `task_to_dicts` map: `collect` keeps the last binding for a key. -/
def hmFromTaskToDicts (task_to_dicts : List TaskToDict) : ℤ → Option Bool :=
  task_to_dicts.foldl
    (fun m item => fun k => if k = item.dictionary_id then some item.contains else m k)
    (fun _ => none)

/-- The per-item `item_match` expression of `calculate_settings_metrics`
(lines 68–100): the four metric kinds read the metrics row; any other kind is
dictionary-bound and is evaluated against `item_dicts`, the dictionary entries
bound to the item. -/
def item_match (task_to_dicts : ℤ → Option Bool) (call_metrics : CallMetrics)
    (ty : SettingsItemKind) (item_dicts : List SettingsDictItem) : Bool :=
  match ty with
  | .CallHolds => decide (call_metrics.call_holds_count = 0)
  | .SilencePauses => decide (call_metrics.silence_pause_count = 0)
  | .Interruptions => decide (call_metrics.client_interruptions_count = 0)
  | .SpeechRateRatio =>
      decide (call_metrics.employee_client_speech_ratio ≤ 120) &&
        decide (call_metrics.employee_client_speech_ratio ≥ 80)
  | _ =>
      let all_match := item_dicts.any (fun dict_item => !dict_item.contains)
      if all_match then
        item_dicts.all (fun dict_item =>
          ((task_to_dicts dict_item.dictionary_id).map
            (fun dict_contains => dict_contains == dict_item.contains)).getD true)
      else
        item_dicts.any (fun dict_item =>
          ((task_to_dicts dict_item.dictionary_id).map
            (fun dict_contains => dict_contains == dict_item.contains)).getD false)

/-- Whether a `SettingsItemKind` falls into the `_` (dictionary-bound) arm of
the `item_match` match expression. -/
def SettingsItemKind.isDictKind : SettingsItemKind → Bool
  | .SpeechRateRatio | .CallHolds | .SilencePauses | .Interruptions => false
  | _ => true

/-- The inner per-item loop of `calculate_settings_metrics` (lines 67–114):
threads the `items_to_dict_items` map (entries are `remove`d in the
dictionary-bound arm), and returns the final map, the item metrics in order,
and the accumulated `total_score`. -/
def score_items (task_to_dicts : ℤ → Option Bool) (call_metrics : CallMetrics)
    (score_point_normalized : FV) :
    List SettingsItem → (ℕ → Option (List SettingsDictItem)) →
    (ℕ → Option (List SettingsDictItem)) × List TaskSettingsItemMetric × ℤ
  | [], itd => (itd, [], 0)
  | settings_item :: rest, itd =>
    let fetched : List SettingsDictItem × (ℕ → Option (List SettingsDictItem)) :=
      if settings_item.type.isDictKind
      then ((itd settings_item.id).getD [], mapRemove itd settings_item.id)
      else ([], itd)
    let matched := item_match task_to_dicts call_metrics settings_item.type fetched.1
    let score : FV :=
      if matched then fmul (.fin (settings_item.score_weight : ℚ)) score_point_normalized
      else .fin 0
    let score_i := f32toI32 score
    let tail := score_items task_to_dicts call_metrics score_point_normalized rest fetched.2
    (tail.1, ⟨settings_item, score_i⟩ :: tail.2.1, score_i + tail.2.2)

/-- The write-once score update of `calculate_settings_metrics` (lines 116–127). -/
def applyScore (call_metrics : CallMetrics) (kind : SettingsKind) (total_score : ℤ) :
    CallMetrics :=
  match kind with
  | .Script =>
      if call_metrics.script_score = 0 then { call_metrics with script_score := total_score }
      else call_metrics
  | .Quality =>
      if call_metrics.employee_quality_score = 0 then
        { call_metrics with employee_quality_score := total_score }
      else call_metrics

/-- The outer per-category loop of `calculate_settings_metrics` (lines 44–134).
The error string is the source's "can't find related settings" message; the
mutated `CallMetrics` is returned alongside the result in either case (the Rust
function mutates it through `&mut` even when a later category errors). -/
def settingsLoop (task_to_dicts : ℤ → Option Bool) :
    List Settings → (ℕ → Option (List SettingsDictItem)) →
    (ℕ → Option (List SettingsItem)) → CallMetrics →
    Except String (List TaskSettingsMetrics) × CallMetrics
  | [], _, _, call_metrics => (.ok [], call_metrics)
  | settings :: rest, itd, sti, call_metrics =>
    match sti settings.id with
    | none => (.error "cant find related settings", call_metrics)
    | some settings_items =>
      let sum_goal_scores_weights : ℤ :=
        settings_items.foldl (fun acc settings_item => acc + settings_item.score_weight) 0
      let score_point_normalized : FV :=
        fdiv (.fin 100) (.fin (sum_goal_scores_weights : ℚ))
      let inner := score_items task_to_dicts call_metrics score_point_normalized
        settings_items itd
      let total_score := inner.2.2
      let cm1 := applyScore call_metrics settings.type total_score
      let tail := settingsLoop task_to_dicts rest inner.1 (mapRemove sti settings.id) cm1
      (tail.1.map (fun results => ⟨settings, total_score, inner.2.1⟩ :: results), tail.2)

/-- `protocol::entity::settings_metrics::calculate_settings_metrics`.  Returns
the result together with the (in-place mutated) metrics row. -/
def calculate_settings_metrics (task_to_dicts : List TaskToDict)
    (call_metrics : CallMetrics) (settings : List Settings)
    (settings_items : List SettingsItem) (settings_dict_items : List SettingsDictItem) :
    Except String (List TaskSettingsMetrics) × CallMetrics :=
  settingsLoop (hmFromTaskToDicts task_to_dicts) settings
    (group_by settings_dict_items (fun item => item.settings_item_id))
    (group_by settings_items (fun item => item.settings_id))
    call_metrics

/-! ## Search index (`worker/src/indexer.rs`)

The indexer is built on the tantivy library; the tokenizer and query
primitives used by the source are embedded from tantivy's documented
semantics:

* the registered `custom_tokenizer` is `SimpleTokenizer` (tokens are the
  maximal runs of alphanumeric characters) followed by `LowerCaser`; it is
  applied to the two transcript fields at indexing time;
* `Term::from_field_text` builds a term from the given text verbatim — no
  tokenizer or filter is applied on the query side;
* a `TermQuery` matches a document iff the term occurs among the field's
  indexed tokens; a `PhraseQuery` matches iff its terms occur at consecutive
  token positions (the fields are indexed `WithFreqsAndPositions`);
* the `uuid` field is a raw `STRING` field: indexed untokenized, matched by
  exact equality;
* a `BooleanQuery` of two `Occur::Must` clauses matches the documents matched
  by both clauses, and `TopDocs::with_limit(1)` is nonempty iff some document
  matches.

Unicode caveat: Lean's `Char.isAlphanum`/`Char.toLower` are used where Rust
applies the Unicode-aware `char::is_alphanumeric` and lowercasing; all inputs
appearing in theorems below are ASCII, where the two agree. -/

/-- tantivy `SimpleTokenizer`: maximal runs of alphanumeric characters. -/
def simpleTokenize (s : String) : List String :=
  (splitStr (fun c => !c.isAlphanum) s).filter (fun t => t ≠ "")

/-- Per-character lowercasing of a string (tantivy `LowerCaser`). -/
def toLowerStr (s : String) : String :=
  String.mk (s.data.map Char.toLower)

/-- The `custom_tokenizer` registered in `TantivyIndexer::new`:
`SimpleTokenizer` followed by `LowerCaser`. -/
def indexTokens (s : String) : List String :=
  (simpleTokenize s).map toLowerStr

/-- One indexed document, as written by `index_speech_recog`.  The payload is
the recognition data itself (its serde serialization is injective and the
payload is only stored and returned, so serialization is not modelled). -/
structure IndexDoc where
  client_transcript : String
  employee_transcript : String
  uuid : ℕ
  payload : RecognitionData
deriving DecidableEq

/-- The client-channel concatenation in `index_speech_recog`: a left fold
starting from `""` appending `" " ++ text` per client segment. -/
def client_transcript_text (recog_data : RecognitionData) : String :=
  (recog_data.speech_recognition_result.filter
    (fun recog => recog.speaker = ParticipantKind.Client)).foldl
    (fun cur next => cur ++ " " ++ next.text) ""

/-- The employee-channel concatenation in `index_speech_recog`. -/
def employee_transcript_text (recog_data : RecognitionData) : String :=
  (recog_data.speech_recognition_result.filter
    (fun recog => recog.speaker = ParticipantKind.Employee)).foldl
    (fun cur next => cur ++ " " ++ next.text) ""

/-- `index_speech_recog`: adds one document (there is no delete/overwrite path
for a task id) and commits; the committed state is the document list. -/
def index_speech_recog (id : ℕ) (recog_data : RecognitionData)
    (st : List IndexDoc) : List IndexDoc :=
  st ++ [⟨client_transcript_text recog_data, employee_transcript_text recog_data,
          id, recog_data⟩]

/-- The transcript field selected by `search_phrase` for a speaker. -/
def transcriptOf (speaker : ParticipantKind) (d : IndexDoc) : String :=
  if speaker = ParticipantKind.Client then d.client_transcript
  else d.employee_transcript

/-- `ws` occurs at consecutive positions in `toks` (tantivy `PhraseQuery`
against a positions-indexed field). -/
def hasRun (ws : List String) : List String → Bool
  | [] => ws.isEmpty
  | t :: ts => ws.isPrefixOf (t :: ts) || hasRun ws ts

/-- The transcript-field clause of the query built by `search_phrase` from the
raw query words (already split, guaranteed nonempty by the caller): a phrase
query over the raw words when there are several, a term query on the single
raw word otherwise. -/
def queryMatches (words : List String) (toks : List String) : Bool :=
  if words.length > 1 then hasRun words toks
  else match words with
       | [w] => toks.contains w
       | _ => false

/-- Whether one document matches the `BooleanQuery` built by `search_phrase`:
the transcript clause conjoined with the task-id term query. -/
def docMatches (id : ℕ) (words : List String) (speaker : ParticipantKind)
    (d : IndexDoc) : Bool :=
  queryMatches words (indexTokens (transcriptOf speaker d)) && (d.uuid == id)

/-- `search_phrase`.  `none` models the source's panic
(`words.first().expect("non empty vec")`) on a whitespace-only phrase. -/
def search_phrase (st : List IndexDoc) (id : ℕ) (phrase : String)
    (speaker : ParticipantKind) : Option Bool :=
  let words := splitWhitespaceR phrase
  if words.isEmpty then none
  else some (st.any (docMatches id words speaker))

/-! ## Task reprocessing (`api-server/src/handlers/task.rs`, `do_reprocess`) -/

/-- `protocol::db::task::TaskResultKind`. -/
inductive TaskResultKind where
  | Processing
  | Ready
  | Failed
deriving DecidableEq

/-- `protocol::db::task::Task`. -/
structure Task where
  id : ℕ
  call_metadata_id : ℕ
  status : TaskResultKind
  failed_reason : Option String
  project_id : ℕ
deriving DecidableEq

/-- The error kinds `do_reprocess` can produce. -/
inductive ReprocessError where
  | EntityNotFound
  | TaskAlreadyProcessing
deriving DecidableEq

instance {ε α : Type} [DecidableEq ε] [DecidableEq α] : DecidableEq (Except ε α) := fun x y =>
  match x, y with
  | .ok a, .ok b => decidable_of_iff (a = b) (by simp)
  | .error a, .error b => decidable_of_iff (a = b) (by simp)
  | .ok _, .error _ => isFalse (by simp)
  | .error _, .ok _ => isFalse (by simp)

/-- The outcome of `do_reprocess`: the task rows after the call, the queue
messages published, and the response. -/
structure ReprocessOutcome where
  db : List Task
  published : List ℕ
  response : Except ReprocessError Task
deriving DecidableEq

/-- `do_reprocess` over a task table.  `Task::get` looks the task up by id;
on a non-`Processing` status the handler sets the local copy's status to
`Processing` and calls `Task::insert`, which `INSERT`s a **new** row whose id
is database-generated (`fresh` here) — the stored row is not updated — and
then publishes the id of the row `insert` returned. -/
def do_reprocess (db : List Task) (fresh : ℕ) (task_id : ℕ) : ReprocessOutcome :=
  match db.find? (fun t => t.id == task_id) with
  | none => ⟨db, [], .error .EntityNotFound⟩
  | some stored_task =>
    if stored_task.status = TaskResultKind.Processing then
      ⟨db, [], .error .TaskAlreadyProcessing⟩
    else
      let inserted : Task :=
        { id := fresh
          call_metadata_id := stored_task.call_metadata_id
          status := TaskResultKind.Processing
          failed_reason := none
          project_id := stored_task.project_id }
      ⟨db ++ [inserted], [inserted.id], .ok inserted⟩

/-! ## Reference definitions written from the specification's words -/

/-- The hold intervals "music or silence, each expanded by ±5.0s" (spec §4.2). -/
def expandedHolds (holds : CallHolds) : List Interval :=
  (holds.music ++ holds.silent).map
    (fun hold => Interval.mk (hold.start - 5) (hold.stop + 5))

/-- The reference pause scan: walk the tagged intervals in order; when the end
`e` of the previous employee interval is tracked and the next employee interval
`iv` opens a gap of at least 5 s that is not suppressed (`suppress e iv`),
register a pause of length `iv.start - e`; the tracker becomes `iv.stop` after
an employee interval and resets to `none` after a client interval. -/
def pauseScanRef (suppress : ℚ → Interval → Bool) :
    Option ℚ → List (ParticipantKind × Interval) → ℤ × ℚ
  | _, [] => (0, 0)
  | prev, (k, iv) :: rest =>
    let next := pauseScanRef suppress
      (if k = ParticipantKind.Employee then some iv.stop else none) rest
    match prev, k with
    | some e, ParticipantKind.Employee =>
      if 5 ≤ iv.start - e ∧ suppress e iv = false
      then (next.1 + 1, next.2 + (iv.start - e))
      else next
    | some _, ParticipantKind.Client => next
    | none, _ => next

/-- The start-sorted merge of the claim: "sort all employee and client
intervals by start" (stable, ties keeping employee-before-client input order,
as in the source's stable `sort_by`). -/
def taggedByStart (employee_intervals client_intervals : List Interval) :
    List (ParticipantKind × Interval) :=
  sortBy (fun a b => decide (a.2.start ≤ b.2.start))
    (employee_intervals.map (fun interval => (ParticipantKind.Employee, interval)) ++
      client_intervals.map (fun interval => (ParticipantKind.Client, interval)))

/-- `count_pauses` as claim C3 states it: a pause needs a ≥ 5 s gap and no
expanded hold **overlapping that gap** (the interval from the previous
employee end to the next employee start); `(0, 0.0)` when either speaker has
no intervals. -/
def count_pauses_refC3 (employee_intervals client_intervals : List Interval)
    (holds : CallHolds) : ℤ × ℚ :=
  if employee_intervals = [] ∨ client_intervals = [] then (0, 0)
  else
    pauseScanRef
      (fun e iv => (expandedHolds holds).any
        (fun hold => intervals_overlap hold (Interval.mk e iv.start)))
      none (taggedByStart employee_intervals client_intervals)

/-- Claim C3 amended, changed only in the suppression test: a pause is
suppressed when some expanded hold overlaps the **next employee interval**
itself (this is what the source checks), not the gap. -/
def count_pauses_refAmended (employee_intervals client_intervals : List Interval)
    (holds : CallHolds) : ℤ × ℚ :=
  if employee_intervals = [] ∨ client_intervals = [] then (0, 0)
  else
    pauseScanRef
      (fun _ iv => (expandedHolds holds).any
        (fun hold => intervals_overlap hold iv))
      none (taggedByStart employee_intervals client_intervals)

/-- The per-dictionary agreement of claim C7: the task's observed containment
for the entry's dictionary equals the entry's polarity, defaulting to `dflt`
when the dictionary has no observed result. -/
def entryAgrees (task_to_dicts : ℤ → Option Bool) (entry : SettingsDictItem)
    (dflt : Prop) : Prop :=
  match task_to_dicts entry.dictionary_id with
  | some observed => observed = entry.contains
  | none => dflt

/-- Dictionary-bound matching as claim C7 states it: if any bound entry has
`contains = false`, the item matches iff all bound entries agree (defaulting
to agreement without an observed result); otherwise it matches iff at least
one bound entry agrees (defaulting to no agreement). -/
def dict_match_spec (task_to_dicts : ℤ → Option Bool)
    (entries : List SettingsDictItem) : Prop :=
  if ∃ e ∈ entries, e.contains = false then
    ∀ e ∈ entries, entryAgrees task_to_dicts e True
  else
    ∃ e ∈ entries, entryAgrees task_to_dicts e False

/-! ## Concrete test fixtures -/

/-- A metrics row with every field at its zero/default value, as produced by
the Rust `CallMetrics::default()`. -/
def testMetrics : CallMetrics :=
  ⟨0, 0, 0, 0, 0, 0, 0, 0, 0, 0, 0, 0, 0, .fin 0, .fin 0, 0, 0, none, none, none⟩

/-- Recognition data whose single employee segment reads "Hello world". -/
def rdHello : RecognitionData :=
  ⟨⟨[], []⟩, [], ⟨[], []⟩, [⟨"Hello world", ⟨0, 1⟩, .Employee⟩]⟩

/-- Recognition data whose single employee segment reads "hello". -/
def rdLower : RecognitionData :=
  ⟨⟨[], []⟩, [], ⟨[], []⟩, [⟨"hello", ⟨0, 1⟩, .Employee⟩]⟩

/-! ## Claim theorems -/

/-- C9 (code divergence at the failing input): for a stored `Ready` task,
`do_reprocess` does not set that task's status to `Processing` — it appends a
**new** task row with a fresh id and status `Processing`, leaves the stored
row's status at `Ready` (likewise for `Failed`, whose `failed_reason` is also
dropped from the new row), and enqueues the new id rather than the requested
one; for a `Processing` task it errors with "already processing" and performs
no write or publish, as the claim states. -/
theorem do_reprocess_inserts_new_row :
    do_reprocess [⟨1, 5, .Ready, none, 9⟩] 2 1 =
      ⟨[⟨1, 5, .Ready, none, 9⟩, ⟨2, 5, .Processing, none, 9⟩], [2],
        .ok ⟨2, 5, .Processing, none, 9⟩⟩ ∧
    do_reprocess [⟨1, 5, .Processing, none, 9⟩] 2 1 =
      ⟨[⟨1, 5, .Processing, none, 9⟩], [], .error .TaskAlreadyProcessing⟩ ∧
    do_reprocess [⟨1, 5, .Failed, some "boom", 9⟩] 2 1 =
      ⟨[⟨1, 5, .Failed, some "boom", 9⟩, ⟨2, 5, .Processing, none, 9⟩], [2],
        .ok ⟨2, 5, .Processing, none, 9⟩⟩ :=
  ⟨by decide, by decide, by decide⟩

/-- C2 (code divergence at the failing input): indexing lowercases tokens but
`search_phrase` builds query terms from the raw words, so the phrase "Hello" —
differing from the indexed text only in letter case — does not match, while
"hello" does. -/
theorem search_phrase_case_mismatch :
    indexTokens (employee_transcript_text rdHello) = ["hello", "world"] ∧
    search_phrase (index_speech_recog 1 rdHello []) 1 "Hello" .Employee = some false ∧
    search_phrase (index_speech_recog 1 rdHello []) 1 "hello" .Employee = some true :=
  ⟨by decide, by decide, by decide⟩

/-- C6 counterexample: "ell" is an exact substring of the indexed employee
channel text " hello", yet `search_phrase` returns `false` for it (the phrase
is not token-aligned), refuting the claim that every exact substring phrase is
found. -/
theorem search_phrase_substring_counterexample :
    " h" ++ "ell" ++ "o" = employee_transcript_text rdLower ∧
    search_phrase (index_speech_recog 1 rdLower []) 1 "ell" .Employee = some false :=
  ⟨by decide, by decide⟩

/-- C1 counterexample: a Script category holding a single item of weight 0 has
weight sum 0, yet `calculate_settings_metrics` returns `Ok` (the f32
normalization divides by zero and the NaN score is cast to 0), refuting the
claim that a zero weight sum fails like a category with no items. -/
theorem calculate_ok_with_zero_weight_sum :
    (calculate_settings_metrics [] testMetrics [⟨1, 0, .Script⟩]
        [⟨10, 1, true, .CallHolds, "item", 0⟩] []).1.isOk = true ∧
    ([(⟨10, 1, true, .CallHolds, "item", 0⟩ : SettingsItem)].foldl
        (fun acc it => acc + it.score_weight) 0 : ℤ) = 0 :=
  ⟨by decide, by decide⟩

/-- C5 counterexample: with item weights 2 and 1 (both matched), the source
reports scores 66 and 33 and total 99, while the claimed rounding formula
gives `round(2 · 100/3) = 67`: the `score as i32` cast truncates instead of
rounding. -/
theorem score_truncates_not_rounds :
    (calculate_settings_metrics [] testMetrics [⟨1, 0, .Script⟩]
        [⟨10, 1, true, .CallHolds, "a", 2⟩, ⟨11, 1, true, .CallHolds, "b", 1⟩] []).1 =
      .ok [⟨⟨1, 0, .Script⟩, 99,
        [⟨⟨10, 1, true, .CallHolds, "a", 2⟩, 66⟩,
         ⟨⟨11, 1, true, .CallHolds, "b", 1⟩, 33⟩]⟩] ∧
    ratRound ((2 : ℚ) * (100 / (2 + 1))) = 67 :=
  ⟨by decide, by decide⟩

/-- C3 counterexample: employee `[0,2]` and `[20,25]`, client `[30,40]`, one
music hold `[7,10]`.  The expanded hold `[2,15]` overlaps the gap `(2,20)`, so
the claim's reference definition suppresses the pause, but the source checks
the hold against the next employee interval `[20,25]` instead and counts a
pause of 18 s. -/
theorem count_pauses_hold_gap_counterexample :
    count_pauses [⟨0, 2⟩, ⟨20, 25⟩] [⟨30, 40⟩] ⟨[⟨7, 10⟩], []⟩ = (1, 18) ∧
    count_pauses_refC3 [⟨0, 2⟩, ⟨20, 25⟩] [⟨30, 40⟩] ⟨[⟨7, 10⟩], []⟩ = (0, 0) :=
  ⟨by decide, by decide⟩

/-- The running fold of `find_interruptions`, over an arbitrary accumulator. -/
lemma find_interruptions_foldl (client_intervals : List Interval) :
    ∀ (es : List Interval) (a : ℚ) (b : ℤ),
      es.foldl
        (fun acc employee_interval =>
          match client_intervals.find? (fun ci => is_interruption employee_interval ci) with
          | some _ => (acc.1 + (employee_interval.stop - employee_interval.start), acc.2 + 1)
          | none => acc) (a, b) =
      (a + ((es.filter (fun ei => client_intervals.any (fun ci => is_interruption ei ci))).map
          (fun ei => ei.stop - ei.start)).sum,
        b + (es.countP (fun ei => client_intervals.any (fun ci => is_interruption ei ci)) : ℤ)) := by
  intro es
  induction es with
  | nil => intro a b; simp
  | cons e es ih =>
    intro a b
    by_cases h : client_intervals.any (fun ci => is_interruption e ci) = true
    · have hsome : (client_intervals.find? (fun ci => is_interruption e ci)).isSome := by
        rw [List.find?_isSome]
        simpa using h
      obtain ⟨c, hc⟩ := Option.isSome_iff_exists.mp hsome
      simp only [List.foldl_cons, hc, List.filter_cons, h, if_pos, List.countP_cons, ih,
        List.map_cons, List.sum_cons]
      refine Prod.ext ?_ ?_ <;> simp [h] <;> ring
    · have hnone : client_intervals.find? (fun ci => is_interruption e ci) = none := by
        rw [List.find?_eq_none]
        intro x hx
        by_contra hbx
        exact h (List.any_eq_true.mpr ⟨x, hx, by simpa using hbx⟩)
      simp only [List.foldl_cons, hnone, List.filter_cons, List.countP_cons, ih]
      simp [h]

/-- C4: `find_interruptions` returns the sum, over employee intervals that
interrupt some client interval (first matching client wins — each employee
interval is counted at most once), of that employee interval's own duration,
paired with the count of such employee intervals; and a pair whose overlap is
below 1.0 s is never an interruption. -/
theorem find_interruptions_correct (employee_intervals client_intervals : List Interval) :
    find_interruptions employee_intervals client_intervals =
      (((employee_intervals.filter
            (fun ei => client_intervals.any (fun ci => is_interruption ei ci))).map
          (fun ei => ei.stop - ei.start)).sum,
        (employee_intervals.countP
          (fun ei => client_intervals.any (fun ci => is_interruption ei ci)) : ℤ)) ∧
    ∀ ei ci, min ei.stop ci.stop - max ei.start ci.start < OVERLAP_DURATION_EPS →
      is_interruption ei ci = false := by
  constructor
  · rw [find_interruptions, find_interruptions_foldl]
    simp
  · intro ei ci h
    simp only [is_interruption, Bool.and_eq_false_iff, decide_eq_false_iff_not, not_le]
    right
    simpa [min_comm, max_comm] using h

/-- Witness for C4 at a concrete input: overlap `0.5 < 1`, no interruption. -/
theorem find_interruptions_correct_witness :
    is_interruption ⟨0, 2⟩ ⟨(3 : ℚ)/2, 5⟩ = false :=
  (find_interruptions_correct [] []).2 ⟨0, 2⟩ ⟨(3 : ℚ)/2, 5⟩ (by norm_num [OVERLAP_DURATION_EPS])

/-- C10: `calculate_words_per_minute` does not guard its division.  For a
speaker with zero total speech time, `process_metrics` stores NaN in the
words-per-minute field when that speaker has no words and `+inf` when it has
some — never `0.0` — so the division-by-zero-yields-0 rule of the ratio
metrics does not extend to words per minute. -/
theorem words_per_minute_unguarded (recog_data : RecognitionData) :
    (total_speech_duration recog_data.phrase_timestamps.employee = 0 →
      (process_metrics recog_data).avg_employee_words_per_min =
        (if speaker_word_count recog_data.speech_recognition_result .Employee = 0
         then FV.nan else FV.inf) ∧
      (process_metrics recog_data).avg_employee_words_per_min ≠ FV.fin 0) ∧
    (total_speech_duration recog_data.phrase_timestamps.client = 0 →
      (process_metrics recog_data).avg_client_words_per_min =
        (if speaker_word_count recog_data.speech_recognition_result .Client = 0
         then FV.nan else FV.inf) ∧
      (process_metrics recog_data).avg_client_words_per_min ≠ FV.fin 0) := by
  constructor
  · intro h
    have hfield : (process_metrics recog_data).avg_employee_words_per_min =
        fround (calculate_words_per_minute recog_data.speech_recognition_result
          (total_speech_duration recog_data.phrase_timestamps.employee)
          ParticipantKind.Employee) := rfl
    rw [hfield, h]
    rcases Nat.eq_zero_or_pos
        (speaker_word_count recog_data.speech_recognition_result .Employee) with hw | hw
    · simp [calculate_words_per_minute, hw, fdiv, fround, zero_div]
    · have hq : (0 : ℚ) < (speaker_word_count recog_data.speech_recognition_result
          .Employee : ℚ) := by exact_mod_cast hw
      simp [calculate_words_per_minute, fdiv, fround, zero_div, hw.ne', hq, hq.ne']
  · intro h
    have hfield : (process_metrics recog_data).avg_client_words_per_min =
        fround (calculate_words_per_minute recog_data.speech_recognition_result
          (total_speech_duration recog_data.phrase_timestamps.client)
          ParticipantKind.Client) := rfl
    rw [hfield, h]
    rcases Nat.eq_zero_or_pos
        (speaker_word_count recog_data.speech_recognition_result .Client) with hw | hw
    · simp [calculate_words_per_minute, hw, fdiv, fround, zero_div]
    · have hq : (0 : ℚ) < (speaker_word_count recog_data.speech_recognition_result
          .Client : ℚ) := by exact_mod_cast hw
      simp [calculate_words_per_minute, fdiv, fround, zero_div, hw.ne', hq, hq.ne']

/-- Witness for C10: `rdHello` has employee words but no employee intervals,
so its stored employee words-per-minute is `+inf`. -/
theorem words_per_minute_unguarded_witness :
    (process_metrics rdHello).avg_employee_words_per_min = FV.inf :=
  (((words_per_minute_unguarded rdHello).1 (by decide)).1).trans (by decide)

/-- The Bool agreement test with default `true` is `entryAgrees _ _ True`. -/
lemma agree_getD_true (ttd : ℤ → Option Bool) (e : SettingsDictItem) :
    ((((ttd e.dictionary_id).map (fun c => c == e.contains)).getD true) = true) ↔
      entryAgrees ttd e True := by
  cases h : ttd e.dictionary_id <;> simp [entryAgrees, h]

/-- The Bool agreement test with default `false` is `entryAgrees _ _ False`. -/
lemma agree_getD_false (ttd : ℤ → Option Bool) (e : SettingsDictItem) :
    ((((ttd e.dictionary_id).map (fun c => c == e.contains)).getD false) = true) ↔
      entryAgrees ttd e False := by
  cases h : ttd e.dictionary_id <;> simp [entryAgrees, h]

/-- C7: for every dictionary-bound settings item kind, the source's
`item_match` agrees with the claim's rule: with an absence (`contains = false`)
entry among the bindings, the item matches iff all bound entries agree with the
task's observed containment (defaulting to agreement when unobserved);
otherwise iff at least one bound entry agrees (defaulting to no agreement). -/
theorem item_match_dictionary_rule (ttd : ℤ → Option Bool) (cm : CallMetrics)
    (ty : SettingsItemKind) (entries : List SettingsDictItem)
    (h : ty.isDictKind = true) :
    (item_match ttd cm ty entries = true) ↔ dict_match_spec ttd entries := by
  have hmatch : item_match ttd cm ty entries =
      (if entries.any (fun d => !d.contains) then
        entries.all (fun d =>
          ((ttd d.dictionary_id).map (fun c => c == d.contains)).getD true)
      else
        entries.any (fun d =>
          ((ttd d.dictionary_id).map (fun c => c == d.contains)).getD false)) := by
    cases ty <;> simp_all [item_match, SettingsItemKind.isDictKind]
  rw [hmatch, dict_match_spec]
  by_cases hex : ∃ e ∈ entries, e.contains = false
  · have hany : entries.any (fun d => !d.contains) = true := by
      simpa [List.any_eq_true] using hex
    simp only [hany, if_true, hex, List.all_eq_true]
    exact forall₂_congr (fun e _ => agree_getD_true ttd e)
  · have hany : entries.any (fun d => !d.contains) = false := by
      simpa [List.any_eq_false] using hex
    simp only [hany, Bool.false_eq_true, if_false, hex, List.any_eq_true]
    exact exists_congr (fun e => and_congr_right (fun _ => agree_getD_false ttd e))

/-- Witness for C7 at a concrete input: one presence binding on dictionary 7,
observed containment `true` — the item matches. -/
theorem item_match_dictionary_rule_witness :
    dict_match_spec (fun k => if k = 7 then some true else none) [⟨0, 0, 7, true⟩] :=
  (item_match_dictionary_rule (fun k => if k = 7 then some true else none) testMetrics
    .Dictionary [⟨0, 0, 7, true⟩] (by decide)).mp (by decide)

/-- Where `group_by`'s fold has produced a binding: over any starting map. -/
lemma group_by_isSome_aux {K T : Type} [DecidableEq K] (mapper : T → K) :
    ∀ (items : List T) (m : K → Option (List T)) (k : K),
      (((items.foldl
          (fun m item => fun k =>
            if k = mapper item then some ((m k).getD [] ++ [item]) else m k) m) k).isSome
        = true) ↔
        (∃ it ∈ items, mapper it = k) ∨ (m k).isSome = true := by
  intro items
  induction items with
  | nil => intro m k; simp
  | cons it rest ih =>
    intro m k
    rw [List.foldl_cons, ih]
    by_cases hk : k = mapper it
    · simp [hk.symm]
    · simp only [List.mem_cons]
      constructor
      · rintro (⟨x, hx, hxk⟩ | hm)
        · exact Or.inl ⟨x, Or.inr hx, hxk⟩
        · simp only [if_neg hk] at hm
          exact Or.inr hm
      · rintro (⟨x, hx | hx, hxk⟩ | hm)
        · exact absurd (hx ▸ hxk) (fun he => hk he.symm)
        · exact Or.inl ⟨x, hx, hxk⟩
        · exact Or.inr (by simp [if_neg hk, hm])

/-- `group_by` has a binding for `k` exactly when some item maps to `k`. -/
lemma group_by_isSome {K T : Type} [DecidableEq K] (items : List T) (mapper : T → K)
    (k : K) :
    (((group_by items mapper) k).isSome = true) ↔ ∃ it ∈ items, mapper it = k := by
  rw [group_by, group_by_isSome_aux]
  simp

/-- Mapping over an `Except` preserves `isOk`. -/
lemma Except.isOk_map {ε α β : Type} (f : α → β) (e : Except ε α) :
    (e.map f).isOk = e.isOk := by
  cases e <;> rfl

/-- The scoring loop succeeds exactly when every category (with pairwise
distinct ids) has a binding in the settings-items map. -/
lemma settingsLoop_isOk (ttd : ℤ → Option Bool) :
    ∀ (ss : List Settings) (itd : ℕ → Option (List SettingsDictItem))
      (sti : ℕ → Option (List SettingsItem)) (cm : CallMetrics),
      (ss.map (fun s => s.id)).Nodup →
      (((settingsLoop ttd ss itd sti cm).1.isOk = true) ↔
        ∀ s ∈ ss, (sti s.id).isSome = true) := by
  intro ss
  induction ss with
  | nil => intro itd sti cm _; simp [settingsLoop, Except.isOk, Except.toBool]
  | cons s rest ih =>
    intro itd sti cm hnd
    rw [List.map_cons, List.nodup_cons] at hnd
    obtain ⟨hs, hrest⟩ := hnd
    cases hsti : sti s.id with
    | none =>
      simp only [settingsLoop, hsti]
      simp [Except.isOk, Except.toBool, hsti]
    | some items =>
      simp only [settingsLoop, hsti, Except.isOk_map]
      rw [ih _ _ _ hrest]
      have hiff : (∀ s' ∈ rest, ((mapRemove sti s.id) s'.id).isSome = true) ↔
          ∀ s' ∈ rest, (sti s'.id).isSome = true := by
        refine forall₂_congr (fun s' hm => ?_)
        have hne : s'.id ≠ s.id := by
          intro he
          exact hs (he ▸ List.mem_map_of_mem (fun x => x.id) hm)
        rw [mapRemove]
        simp [hne]
      rw [hiff]
      simp [List.forall_mem_cons, hsti]

/-- C1 (amended): `calculate_settings_metrics` succeeds iff every category has
at least one settings item; a zero weight sum with existing items does **not**
make it fail (shown separately by `calculate_ok_with_zero_weight_sum`). -/
theorem calculate_settings_metrics_isOk_iff (task_to_dicts : List TaskToDict)
    (call_metrics : CallMetrics) (settings : List Settings)
    (settings_items : List SettingsItem) (settings_dict_items : List SettingsDictItem)
    (h : (settings.map (fun s => s.id)).Nodup) :
    ((calculate_settings_metrics task_to_dicts call_metrics settings settings_items
        settings_dict_items).1.isOk = true) ↔
      ∀ s ∈ settings, ∃ it ∈ settings_items, it.settings_id = s.id := by
  rw [calculate_settings_metrics, settingsLoop_isOk _ _ _ _ _ h]
  exact forall₂_congr
    (fun s _ => group_by_isSome settings_items (fun item => item.settings_id) s.id)

/-- Witness for C1 at a concrete input: one category, one item bound to it. -/
theorem calculate_settings_metrics_isOk_iff_witness :
    (calculate_settings_metrics [] testMetrics [⟨1, 0, .Script⟩]
      [⟨10, 1, true, .CallHolds, "a", 2⟩] []).1.isOk = true :=
  (calculate_settings_metrics_isOk_iff [] testMetrics [⟨1, 0, .Script⟩]
    [⟨10, 1, true, .CallHolds, "a", 2⟩] [] (by decide)).mpr (by decide)

/-- The matched flag of each settings item in order, threading the dict-items
map exactly as the inner scoring loop does. -/
def matchedFlags (task_to_dicts : ℤ → Option Bool) (call_metrics : CallMetrics) :
    List SettingsItem → (ℕ → Option (List SettingsDictItem)) →
    List (SettingsItem × Bool)
  | [], _ => []
  | settings_item :: rest, itd =>
    let fetched : List SettingsDictItem × (ℕ → Option (List SettingsDictItem)) :=
      if settings_item.type.isDictKind
      then ((itd settings_item.id).getD [], mapRemove itd settings_item.id)
      else ([], itd)
    (settings_item, item_match task_to_dicts call_metrics settings_item.type fetched.1) ::
      matchedFlags task_to_dicts call_metrics rest fetched.2

/-- The item metrics produced by the inner loop are, in order, the items with
the f32→i32 saturating-truncating cast of `weight * normalization` (matched)
or of `0` (unmatched). -/
lemma score_items_metrics_eq (ttd : ℤ → Option Bool) (cm : CallMetrics) (norm : FV) :
    ∀ (items : List SettingsItem) (itd : ℕ → Option (List SettingsDictItem)),
      (score_items ttd cm norm items itd).2.1 =
        (matchedFlags ttd cm items itd).map (fun p =>
          ⟨p.1, f32toI32 (if p.2 then fmul (.fin (p.1.score_weight : ℚ)) norm
                          else .fin 0)⟩) := by
  intro items
  induction items with
  | nil => intro itd; rfl
  | cons it rest ih =>
    intro itd
    simp only [score_items, matchedFlags, List.map_cons, ih]

/-- The accumulated total of the inner loop is the sum of the reported item
scores. -/
lemma score_items_total_eq (ttd : ℤ → Option Bool) (cm : CallMetrics) (norm : FV) :
    ∀ (items : List SettingsItem) (itd : ℕ → Option (List SettingsDictItem)),
      (score_items ttd cm norm items itd).2.2 =
        (((score_items ttd cm norm items itd).2.1).map (fun m => m.score)).sum := by
  intro items
  induction items with
  | nil => intro itd; rfl
  | cons it rest ih =>
    intro itd
    simp only [score_items, List.map_cons, List.sum_cons, ih]

/-- Every category result of a successful scoring run has its total equal to
the sum of its item scores. -/
lemma settingsLoop_totals (ttd : ℤ → Option Bool) :
    ∀ (ss : List Settings) (itd : ℕ → Option (List SettingsDictItem))
      (sti : ℕ → Option (List SettingsItem)) (cm : CallMetrics)
      (results : List TaskSettingsMetrics),
      (settingsLoop ttd ss itd sti cm).1 = .ok results →
      ∀ tsm ∈ results, tsm.total_score = (tsm.items.map (fun m => m.score)).sum := by
  intro ss
  induction ss with
  | nil =>
    intro itd sti cm results h
    simp only [settingsLoop] at h
    cases h
    simp
  | cons s rest ih =>
    intro itd sti cm results h
    cases hsti : sti s.id with
    | none => simp [settingsLoop, hsti] at h
    | some items =>
      simp only [settingsLoop, hsti] at h
      cases htail : (settingsLoop ttd rest
          (score_items ttd cm
            (fdiv (.fin 100)
              (.fin ((items.foldl (fun acc it => acc + it.score_weight) 0 : ℤ) : ℚ)))
            items itd).1
          (mapRemove sti s.id)
          (applyScore cm s.type
            (score_items ttd cm
              (fdiv (.fin 100)
                (.fin ((items.foldl (fun acc it => acc + it.score_weight) 0 : ℤ) : ℚ)))
              items itd).2.2)).1 with
      | error e => rw [htail] at h; cases h
      | ok l =>
        rw [htail] at h
        cases h
        intro tsm hm
        rcases List.mem_cons.mp hm with hhead | htl
        · subst hhead
          exact score_items_total_eq ttd cm _ items itd
        · exact ih _ _ _ l htail tsm htl

/-- C5 (amended): a matched item's score is the saturating **truncating**
f32→i32 cast of `weight * (100 / weight sum)` — not a rounding — an unmatched
item's score is the cast of `0` (which is `0`), and every category total is
the integer sum of its item scores. -/
theorem item_scores_truncate (ttd : ℤ → Option Bool) (cm : CallMetrics) (norm : FV)
    (items : List SettingsItem) (itd : ℕ → Option (List SettingsDictItem)) :
    ((score_items ttd cm norm items itd).2.1 =
      (matchedFlags ttd cm items itd).map (fun p =>
        ⟨p.1, f32toI32 (if p.2 then fmul (.fin (p.1.score_weight : ℚ)) norm
                        else .fin 0)⟩)) ∧
    ((score_items ttd cm norm items itd).2.2 =
      (((score_items ttd cm norm items itd).2.1).map (fun m => m.score)).sum) ∧
    ∀ (task_to_dicts : List TaskToDict) (call_metrics : CallMetrics)
      (settings : List Settings) (settings_items : List SettingsItem)
      (settings_dict_items : List SettingsDictItem)
      (results : List TaskSettingsMetrics),
      (calculate_settings_metrics task_to_dicts call_metrics settings settings_items
        settings_dict_items).1 = .ok results →
      ∀ tsm ∈ results, tsm.total_score = (tsm.items.map (fun m => m.score)).sum :=
  ⟨score_items_metrics_eq ttd cm norm items itd,
   score_items_total_eq ttd cm norm items itd,
   fun _ _ _ _ _ results h => settingsLoop_totals _ _ _ _ _ results h⟩

/-- Witness for C5 at the concrete weights-2-and-1 input: the reported head
category has total 99 = 66 + 33. -/
theorem item_scores_truncate_witness :
    (⟨⟨1, 0, .Script⟩, 99,
      [⟨⟨10, 1, true, .CallHolds, "a", 2⟩, 66⟩,
       ⟨⟨11, 1, true, .CallHolds, "b", 1⟩, 33⟩]⟩ : TaskSettingsMetrics).total_score =
      ((⟨⟨1, 0, .Script⟩, 99,
        [⟨⟨10, 1, true, .CallHolds, "a", 2⟩, 66⟩,
         ⟨⟨11, 1, true, .CallHolds, "b", 1⟩, 33⟩]⟩ : TaskSettingsMetrics).items.map
        (fun m => m.score)).sum :=
  (item_scores_truncate (fun _ => none) testMetrics (.fin 0) [] (fun _ => none)).2.2
    [] testMetrics [⟨1, 0, .Script⟩]
    [⟨10, 1, true, .CallHolds, "a", 2⟩, ⟨11, 1, true, .CallHolds, "b", 1⟩] []
    [⟨⟨1, 0, .Script⟩, 99,
      [⟨⟨10, 1, true, .CallHolds, "a", 2⟩, 66⟩,
       ⟨⟨11, 1, true, .CallHolds, "b", 1⟩, 33⟩]⟩]
    (by decide) _ (by decide)

/-- A term query for one word is the one-word phrase query. -/
lemma hasRun_singleton (w : String) :
    ∀ (toks : List String), hasRun [w] toks = toks.contains w := by
  intro toks
  induction toks with
  | nil => rfl
  | cons t ts ih =>
    simp only [hasRun, List.isPrefixOf, Bool.and_true, ih, List.contains_cons]

/-- The query built by `search_phrase` from nonempty raw words behaves as the
uniform consecutive-run test. -/
lemma docQuery_eq_hasRun (words : List String) (hw : words ≠ []) (toks : List String) :
    queryMatches words toks = hasRun words toks := by
  cases words with
  | nil => exact absurd rfl hw
  | cons w rest =>
    cases rest with
    | nil => simp [queryMatches, hasRun_singleton]
    | cons w2 r2 => simp [queryMatches]

/-- C6 (amended): against an index whose other documents belong to other task
ids, after indexing recognition data under `id`, `search_phrase` returns
`true` exactly when the phrase's whitespace-split words occur, verbatim, as a
run of consecutive tokens of that channel's indexed token sequence (lowercased
maximal alphanumeric runs).  In particular an exact substring that cuts a
token (or differs in case from the indexed tokens) is not found, and a phrase
absent from the searched channel's tokens returns `false` even when present in
the other channel. -/
theorem search_phrase_tokens_iff (st : List IndexDoc) (id : ℕ) (rd : RecognitionData)
    (phrase : String) (speaker : ParticipantKind)
    (hothers : ∀ d ∈ st, d.uuid ≠ id)
    (hw : splitWhitespaceR phrase ≠ []) :
    search_phrase (index_speech_recog id rd st) id phrase speaker =
      some (hasRun (splitWhitespaceR phrase)
        (indexTokens (if speaker = ParticipantKind.Client
                      then client_transcript_text rd
                      else employee_transcript_text rd))) := by
  have hne : (splitWhitespaceR phrase).isEmpty = false := by
    cases hsp : splitWhitespaceR phrase with
    | nil => exact absurd hsp hw
    | cons a l => rfl
  rw [search_phrase, index_speech_recog]
  simp only [hne, Bool.false_eq_true, if_false, List.any_append, List.any_cons,
    List.any_nil, Bool.or_false]
  have hst : st.any (docMatches id (splitWhitespaceR phrase) speaker) = false := by
    rw [List.any_eq_false]
    intro d hd
    have : (d.uuid == id) = false := by
      simpa using hothers d hd
    simp [docMatches, this]
  rw [hst, Bool.false_or]
  have hdoc : docMatches id (splitWhitespaceR phrase) speaker
      ⟨client_transcript_text rd, employee_transcript_text rd, id, rd⟩ =
      hasRun (splitWhitespaceR phrase)
        (indexTokens (if speaker = ParticipantKind.Client
                      then client_transcript_text rd
                      else employee_transcript_text rd)) := by
    rw [docMatches]
    simp only [beq_self_eq_true, Bool.and_true]
    rw [show transcriptOf speaker
        ⟨client_transcript_text rd, employee_transcript_text rd, id, rd⟩ =
        (if speaker = ParticipantKind.Client then client_transcript_text rd
         else employee_transcript_text rd) from rfl]
    exact docQuery_eq_hasRun _ hw _
  rw [hdoc]

/-- Witness for C6 at a concrete input: searching "hello" in the indexed
document of `rdLower` under task id 1. -/
theorem search_phrase_tokens_iff_witness :
    search_phrase (index_speech_recog 1 rdLower []) 1 "hello" .Employee =
      some (hasRun (splitWhitespaceR "hello")
        (indexTokens (if ParticipantKind.Employee = ParticipantKind.Client
                      then client_transcript_text rdLower
                      else employee_transcript_text rdLower))) :=
  search_phrase_tokens_iff [] 1 rdLower "hello" .Employee (by simp) (by decide)

/-- Stable insertion permutes: inserting is consing, up to order. -/
lemma insertBy_perm {α : Type} (le : α → α → Bool) (x : α) :
    ∀ l : List α, (insertBy le x l).Perm (x :: l) := by
  intro l
  induction l with
  | nil => exact List.Perm.refl _
  | cons y ys ih =>
    rw [insertBy]
    by_cases h : le x y
    · rw [if_pos h]
    · rw [if_neg h]
      exact (ih.cons y).trans (List.Perm.swap x y ys)

/-- The insertion sort permutes its input. -/
lemma sortBy_perm {α : Type} (le : α → α → Bool) :
    ∀ l : List α, (sortBy le l).Perm l := by
  intro l
  induction l with
  | nil => exact List.Perm.refl _
  | cons x xs ih =>
    show (insertBy le x (sortBy le xs)).Perm (x :: xs)
    exact (insertBy_perm le x _).trans (ih.cons x)

/-- `List.any` is invariant under permutation. -/
lemma perm_any {α : Type} (p : α → Bool) {l l' : List α} (h : l.Perm l') :
    l.any p = l'.any p := by
  rw [Bool.eq_iff_iff]
  simp only [List.any_eq_true]
  exact ⟨fun ⟨x, hx, hp⟩ => ⟨x, h.mem_iff.mp hx, hp⟩,
         fun ⟨x, hx, hp⟩ => ⟨x, h.mem_iff.mpr hx, hp⟩⟩

/-- The source's per-step pause condition, in propositional form: the ≥ 5 s
gap (which subsumes `previous_end < start`) with the hold test `b` false. -/
lemma pause_cond_iff (e : ℚ) (iv : Interval) (b : Bool) :
    ((decide (ParticipantKind.Employee = ParticipantKind.Employee) &&
        decide (e < iv.start) &&
        decide (iv.start - e ≥ PAUSE_DURATION) && !b) = true) ↔
      (5 ≤ iv.start - e ∧ b = false) := by
  simp only [decide_eq_true_eq, Bool.and_eq_true, Bool.not_eq_true', ge_iff_le,
    PAUSE_DURATION]
  constructor
  · rintro ⟨⟨-, h2⟩, h3⟩
    exact ⟨h2, h3⟩
  · rintro ⟨h1, h2⟩
    exact ⟨⟨⟨trivial, by linarith⟩, h1⟩, h2⟩

/-- The scan is pointwise-congruent in the suppression test. -/
lemma pauseScanRef_congr (s1 s2 : ℚ → Interval → Bool) (h : ∀ e iv, s1 e iv = s2 e iv) :
    ∀ (l : List (ParticipantKind × Interval)) (prev : Option ℚ),
      pauseScanRef s1 prev l = pauseScanRef s2 prev l := by
  intro l
  induction l with
  | nil => intro prev; rfl
  | cons kiv rest ih =>
    intro prev
    obtain ⟨k, iv⟩ := kiv
    cases prev with
    | none => cases k <;> simp only [pauseScanRef, ih]
    | some e =>
      cases k with
      | Employee => simp only [pauseScanRef, ih, h]
      | Client => simp only [pauseScanRef, ih]

/-- The source's pause fold, over an arbitrary accumulator, equals the
reference scan whose suppression test checks the expanded holds `hl` against
the upcoming employee interval. -/
lemma pause_foldl_eq (hl : List Interval) :
    ∀ (l : List (ParticipantKind × Interval)) (prev : Option ℚ) (pc : ℤ) (ps : ℚ),
      (l.foldl
        (fun (st : Option ℚ × ℤ × ℚ) interval =>
          let (previous_end, pause_count, pause_sum) := st
          let (pc, ps) :=
            match previous_end with
            | some e =>
              if (decide (interval.1 = ParticipantKind.Employee) &&
                  decide (e < interval.2.start) &&
                  decide (interval.2.start - e ≥ PAUSE_DURATION) &&
                  !(hl.any (fun hold => intervals_overlap hold interval.2))) = true
              then (pause_count + 1, pause_sum + (interval.2.start - e))
              else (pause_count, pause_sum)
            | none => (pause_count, pause_sum)
          let pe := if interval.1 = ParticipantKind.Employee then some interval.2.stop
                    else none
          (pe, pc, ps))
        (prev, pc, ps)).2 =
      (pc + (pauseScanRef
          (fun _ iv => hl.any (fun hold => intervals_overlap hold iv)) prev l).1,
       ps + (pauseScanRef
          (fun _ iv => hl.any (fun hold => intervals_overlap hold iv)) prev l).2) := by
  intro l
  induction l with
  | nil => intro prev pc ps; simp [pauseScanRef]
  | cons kiv rest ih =>
    intro prev pc ps
    obtain ⟨k, iv⟩ := kiv
    rw [List.foldl_cons]
    cases prev with
    | none =>
      rw [ih]
      rfl
    | some e =>
      cases k with
      | Client =>
        have hcond : (decide (ParticipantKind.Client = ParticipantKind.Employee) &&
            decide (e < iv.start) && decide (iv.start - e ≥ PAUSE_DURATION) &&
            !(hl.any (fun hold => intervals_overlap hold iv))) = false := by
          simp
        dsimp only
        rw [hcond]
        rw [ih]
        rfl
      | Employee =>
        by_cases hc : 5 ≤ iv.start - e ∧
            (hl.any (fun hold => intervals_overlap hold iv)) = false
        · have hcond := (pause_cond_iff e iv
            (hl.any (fun hold => intervals_overlap hold iv))).mpr hc
          dsimp only
          rw [hcond, if_pos rfl, ih]
          rw [pauseScanRef]
          simp only [if_pos rfl]
          rw [if_pos hc]
          refine Prod.ext ?_ ?_ <;> dsimp <;> ring
        · have hcond : (decide (ParticipantKind.Employee = ParticipantKind.Employee) &&
              decide (e < iv.start) && decide (iv.start - e ≥ PAUSE_DURATION) &&
              !(hl.any (fun hold => intervals_overlap hold iv))) = false := by
            rw [← Bool.not_eq_true]
            intro hb
            exact hc ((pause_cond_iff e iv _).mp hb)
          dsimp only
          rw [hcond, ih, pauseScanRef]
          simp only [if_pos rfl]
          rw [if_neg hc]
          simp

/-- C3 (amended): `count_pauses` equals the claim's reference scan with one
change, forced by the counterexample: the suppression test checks whether an
expanded hold overlaps the **next employee interval**, not the gap; as claimed,
it returns `(0, 0.0)` whenever either speaker's interval list is empty. -/
theorem count_pauses_eq_refAmended (employee_intervals client_intervals : List Interval)
    (holds : CallHolds) :
    count_pauses employee_intervals client_intervals holds =
      count_pauses_refAmended employee_intervals client_intervals holds := by
  rw [count_pauses, count_pauses_refAmended]
  by_cases hemp : employee_intervals = [] ∨ client_intervals = []
  · have hb : (employee_intervals.isEmpty || client_intervals.isEmpty) = true := by
      rcases hemp with h | h <;> simp [h]
    rw [if_pos hb, if_pos hemp]
  · have hb : ¬ ((employee_intervals.isEmpty || client_intervals.isEmpty) = true) := by
      push_neg at hemp
      simp [hemp.1, hemp.2]
    rw [if_neg hb, if_neg hemp]
    rw [show ((employee_intervals.map (fun interval => (ParticipantKind.Employee, interval)) ++
        client_intervals.map (fun interval => (ParticipantKind.Client, interval)))) =
        (employee_intervals.map (fun interval => (ParticipantKind.Employee, interval)) ++
        client_intervals.map (fun interval => (ParticipantKind.Client, interval))) from rfl]
    have hfold := pause_foldl_eq
      (sortBy (fun a b => decide (a.start ≤ b.start))
        ((holds.music ++ holds.silent).map
          (fun hold => Interval.mk (hold.start - PAUSE_DURATION) (hold.stop + PAUSE_DURATION))))
      (sortBy (fun a b => decide (a.2.start ≤ b.2.start))
        (employee_intervals.map (fun interval => (ParticipantKind.Employee, interval)) ++
          client_intervals.map (fun interval => (ParticipantKind.Client, interval))))
      none 0 0
    have hsup : ∀ (x : ℚ) (iv : Interval),
        (sortBy (fun a b => decide (a.start ≤ b.start))
          ((holds.music ++ holds.silent).map
            (fun hold => Interval.mk (hold.start - PAUSE_DURATION)
              (hold.stop + PAUSE_DURATION)))).any
          (fun hold => intervals_overlap hold iv) =
        (expandedHolds holds).any (fun hold => intervals_overlap hold iv) := by
      intro x iv
      have hperm := sortBy_perm (fun (a : Interval) b => decide (a.start ≤ b.start))
        ((holds.music ++ holds.silent).map
          (fun hold => Interval.mk (hold.start - PAUSE_DURATION) (hold.stop + PAUSE_DURATION)))
      have : ((holds.music ++ holds.silent).map
          (fun hold => Interval.mk (hold.start - PAUSE_DURATION)
            (hold.stop + PAUSE_DURATION))) = expandedHolds holds := rfl
      rw [← this]
      exact perm_any _ hperm
    have hcongr := pauseScanRef_congr _ _ hsup
      (sortBy (fun a b => decide (a.2.start ≤ b.2.start))
        (employee_intervals.map (fun interval => (ParticipantKind.Employee, interval)) ++
          client_intervals.map (fun interval => (ParticipantKind.Client, interval))))
      none
    dsimp only
    rw [hfold, hcongr]
    rw [show (sortBy (fun a b => decide (a.2.start ≤ b.2.start))
        (employee_intervals.map (fun interval => (ParticipantKind.Employee, interval)) ++
          client_intervals.map (fun interval => (ParticipantKind.Client, interval)))) =
        taggedByStart employee_intervals client_intervals from rfl]
    simp

/-- The metrics row with only its two category-score fields reset: two rows
with equal `eraseScores` agree on every field the scoring engine reads. -/
def eraseScores (cm : CallMetrics) : CallMetrics :=
  { cm with script_score := 0, employee_quality_score := 0 }

/-- `item_match` never reads the two score fields. -/
lemma item_match_congr {x y : CallMetrics} (h : eraseScores x = eraseScores y)
    (ttd : ℤ → Option Bool) (ty : SettingsItemKind) (ds : List SettingsDictItem) :
    item_match ttd x ty ds = item_match ttd y ty ds := by
  have h1 : x.call_holds_count = y.call_holds_count := by
    have := congrArg CallMetrics.call_holds_count h
    simpa [eraseScores] using this
  have h2 : x.silence_pause_count = y.silence_pause_count := by
    have := congrArg CallMetrics.silence_pause_count h
    simpa [eraseScores] using this
  have h3 : x.client_interruptions_count = y.client_interruptions_count := by
    have := congrArg CallMetrics.client_interruptions_count h
    simpa [eraseScores] using this
  have h4 : x.employee_client_speech_ratio = y.employee_client_speech_ratio := by
    have := congrArg CallMetrics.employee_client_speech_ratio h
    simpa [eraseScores] using this
  cases ty <;> simp [item_match, h1, h2, h3, h4]

/-- The inner scoring loop never reads the two score fields. -/
lemma score_items_congr {x y : CallMetrics} (h : eraseScores x = eraseScores y)
    (ttd : ℤ → Option Bool) (norm : FV) :
    ∀ (items : List SettingsItem) (itd : ℕ → Option (List SettingsDictItem)),
      score_items ttd x norm items itd = score_items ttd y norm items itd := by
  intro items
  induction items with
  | nil => intro itd; rfl
  | cons it rest ih =>
    intro itd
    simp only [score_items, item_match_congr h, ih]

/-- `applyScore` touches only the score fields. -/
lemma eraseScores_applyScore (cm : CallMetrics) (k : SettingsKind) (t : ℤ) :
    eraseScores (applyScore cm k t) = eraseScores cm := by
  cases k <;> rw [applyScore] <;> split <;> rfl

/-- The outer loop touches only the score fields of the metrics row. -/
lemma settingsLoop_eraseScores (ttd : ℤ → Option Bool) :
    ∀ (ss : List Settings) (itd : ℕ → Option (List SettingsDictItem))
      (sti : ℕ → Option (List SettingsItem)) (cm : CallMetrics),
      eraseScores (settingsLoop ttd ss itd sti cm).2 = eraseScores cm := by
  intro ss
  induction ss with
  | nil => intro itd sti cm; rfl
  | cons s rest ih =>
    intro itd sti cm
    cases hsti : sti s.id with
    | none => simp [settingsLoop, hsti]
    | some items =>
      simp only [settingsLoop, hsti]
      rw [ih, eraseScores_applyScore]

/-- A nonzero script score survives one write-once update. -/
lemma applyScore_script_nonzero (cm : CallMetrics) (k : SettingsKind) (t : ℤ)
    (h : cm.script_score ≠ 0) : (applyScore cm k t).script_score = cm.script_score := by
  cases k
  · simp [applyScore]
    split <;> rfl
  · simp [applyScore, h]

/-- A nonzero quality score survives one write-once update. -/
lemma applyScore_quality_nonzero (cm : CallMetrics) (k : SettingsKind) (t : ℤ)
    (h : cm.employee_quality_score ≠ 0) :
    (applyScore cm k t).employee_quality_score = cm.employee_quality_score := by
  cases k
  · simp [applyScore, h]
  · simp [applyScore]
    split <;> rfl

/-- A nonzero script score survives the whole loop. -/
lemma settingsLoop_script_nonzero (ttd : ℤ → Option Bool) :
    ∀ (ss : List Settings) (itd : ℕ → Option (List SettingsDictItem))
      (sti : ℕ → Option (List SettingsItem)) (cm : CallMetrics),
      cm.script_score ≠ 0 →
      (settingsLoop ttd ss itd sti cm).2.script_score = cm.script_score := by
  intro ss
  induction ss with
  | nil => intro itd sti cm _; rfl
  | cons s rest ih =>
    intro itd sti cm h
    cases hsti : sti s.id with
    | none => simp [settingsLoop, hsti]
    | some items =>
      simp only [settingsLoop, hsti]
      rw [ih _ _ _ (by rw [applyScore_script_nonzero cm s.type _ h]; exact h),
        applyScore_script_nonzero cm s.type _ h]

/-- A nonzero quality score survives the whole loop. -/
lemma settingsLoop_quality_nonzero (ttd : ℤ → Option Bool) :
    ∀ (ss : List Settings) (itd : ℕ → Option (List SettingsDictItem))
      (sti : ℕ → Option (List SettingsItem)) (cm : CallMetrics),
      cm.employee_quality_score ≠ 0 →
      (settingsLoop ttd ss itd sti cm).2.employee_quality_score =
        cm.employee_quality_score := by
  intro ss
  induction ss with
  | nil => intro itd sti cm _; rfl
  | cons s rest ih =>
    intro itd sti cm h
    cases hsti : sti s.id with
    | none => simp [settingsLoop, hsti]
    | some items =>
      simp only [settingsLoop, hsti]
      rw [ih _ _ _ (by rw [applyScore_quality_nonzero cm s.type _ h]; exact h),
        applyScore_quality_nonzero cm s.type _ h]

/-- Writing a total of `0` never changes the row. -/
lemma applyScore_zero (cm : CallMetrics) (k : SettingsKind) : applyScore cm k 0 = cm := by
  cases k <;> rw [applyScore] <;> split <;> try rfl
  case Script.isTrue h => cases cm; simp_all
  case Quality.isTrue h => cases cm; simp_all

/-- A Quality write never touches the script score. -/
lemma applyScore_quality_keeps_script (cm : CallMetrics) (t : ℤ) :
    (applyScore cm SettingsKind.Quality t).script_score = cm.script_score := by
  rw [applyScore]
  split <;> rfl

/-- A Script write never touches the quality score. -/
lemma applyScore_script_keeps_quality (cm : CallMetrics) (t : ℤ) :
    (applyScore cm SettingsKind.Script t).employee_quality_score =
      cm.employee_quality_score := by
  rw [applyScore]
  split <;> rfl

/-- A Script write against a zero field stores the total. -/
lemma applyScore_script_writes (cm : CallMetrics) (t : ℤ) (h : cm.script_score = 0) :
    (applyScore cm SettingsKind.Script t).script_score = t := by
  rw [applyScore]
  simp [h]

/-- A Quality write against a zero field stores the total. -/
lemma applyScore_quality_writes (cm : CallMetrics) (t : ℤ)
    (h : cm.employee_quality_score = 0) :
    (applyScore cm SettingsKind.Quality t).employee_quality_score = t := by
  rw [applyScore]
  simp [h]

/-- Running the loop from a zero script field, successfully: the final script
score is the total of the first Script category whose total is nonzero (`0`
when there is none) — each Script category writes its total exactly when the
field is still zero, and a nonzero value persists. -/
lemma settingsLoop_script_first_write (ttd : ℤ → Option Bool) :
    ∀ (ss : List Settings) (itd : ℕ → Option (List SettingsDictItem))
      (sti : ℕ → Option (List SettingsItem)) (cm : CallMetrics)
      (results : List TaskSettingsMetrics),
      (settingsLoop ttd ss itd sti cm).1 = .ok results →
      cm.script_score = 0 →
      (settingsLoop ttd ss itd sti cm).2.script_score =
        ((((results.filter (fun t => t.settings.type = SettingsKind.Script)).map
            (fun t => t.total_score)).find? (fun t => decide (t ≠ 0))).getD 0) := by
  intro ss
  induction ss with
  | nil =>
    intro itd sti cm results h hz
    simp only [settingsLoop] at h ⊢
    cases h
    simpa using hz
  | cons s rest ih =>
    intro itd sti cm results h hz
    cases hsti : sti s.id with
    | none => simp [settingsLoop, hsti] at h
    | some items =>
      simp only [settingsLoop, hsti] at h ⊢
      cases htail : (settingsLoop ttd rest
          (score_items ttd cm
            (fdiv (.fin 100)
              (.fin ((items.foldl (fun acc it => acc + it.score_weight) 0 : ℤ) : ℚ)))
            items itd).1
          (mapRemove sti s.id)
          (applyScore cm s.type
            (score_items ttd cm
              (fdiv (.fin 100)
                (.fin ((items.foldl (fun acc it => acc + it.score_weight) 0 : ℤ) : ℚ)))
              items itd).2.2)).1 with
      | error e => rw [htail] at h; cases h
      | ok l =>
        rw [htail] at h
        cases h
        cases hk : s.type with
        | Quality =>
          rw [hk] at htail
          have hcm1 : (applyScore cm SettingsKind.Quality
              (score_items ttd cm
                (fdiv (.fin 100)
                  (.fin ((items.foldl (fun acc it => acc + it.score_weight) 0 : ℤ) : ℚ)))
                items itd).2.2).script_score = 0 := by
            rw [applyScore_quality_keeps_script]
            exact hz
          rw [ih _ (mapRemove sti s.id) _ l htail hcm1]
          simp [hk]
        | Script =>
          rw [hk] at htail
          by_cases ht : (score_items ttd cm
                (fdiv (.fin 100)
                  (.fin ((items.foldl (fun acc it => acc + it.score_weight) 0 : ℤ) : ℚ)))
                items itd).2.2 = 0
          · have hcm1 : (applyScore cm SettingsKind.Script
                (score_items ttd cm
                (fdiv (.fin 100)
                  (.fin ((items.foldl (fun acc it => acc + it.score_weight) 0 : ℤ) : ℚ)))
                items itd).2.2).script_score = 0 := by
              rw [applyScore_script_writes cm _ hz]
              exact ht
            rw [ih _ (mapRemove sti s.id) _ l htail hcm1]
            simp [hk, ht]
          · have hcm1 : (applyScore cm SettingsKind.Script
                (score_items ttd cm
                (fdiv (.fin 100)
                  (.fin ((items.foldl (fun acc it => acc + it.score_weight) 0 : ℤ) : ℚ)))
                items itd).2.2).script_score ≠ 0 := by
              rw [applyScore_script_writes cm _ hz]
              exact ht
            rw [settingsLoop_script_nonzero ttd rest _ (mapRemove sti s.id) _ hcm1,
              applyScore_script_writes cm _ hz]
            simp [hk, ht]

/-- Running the loop from a zero quality field, successfully: the final
quality score is the total of the first Quality category whose total is
nonzero (`0` when there is none). -/
lemma settingsLoop_quality_first_write (ttd : ℤ → Option Bool) :
    ∀ (ss : List Settings) (itd : ℕ → Option (List SettingsDictItem))
      (sti : ℕ → Option (List SettingsItem)) (cm : CallMetrics)
      (results : List TaskSettingsMetrics),
      (settingsLoop ttd ss itd sti cm).1 = .ok results →
      cm.employee_quality_score = 0 →
      (settingsLoop ttd ss itd sti cm).2.employee_quality_score =
        ((((results.filter (fun t => t.settings.type = SettingsKind.Quality)).map
            (fun t => t.total_score)).find? (fun t => decide (t ≠ 0))).getD 0) := by
  intro ss
  induction ss with
  | nil =>
    intro itd sti cm results h hz
    simp only [settingsLoop] at h ⊢
    cases h
    simpa using hz
  | cons s rest ih =>
    intro itd sti cm results h hz
    cases hsti : sti s.id with
    | none => simp [settingsLoop, hsti] at h
    | some items =>
      simp only [settingsLoop, hsti] at h ⊢
      cases htail : (settingsLoop ttd rest
          (score_items ttd cm
            (fdiv (.fin 100)
              (.fin ((items.foldl (fun acc it => acc + it.score_weight) 0 : ℤ) : ℚ)))
            items itd).1
          (mapRemove sti s.id)
          (applyScore cm s.type
            (score_items ttd cm
              (fdiv (.fin 100)
                (.fin ((items.foldl (fun acc it => acc + it.score_weight) 0 : ℤ) : ℚ)))
              items itd).2.2)).1 with
      | error e => rw [htail] at h; cases h
      | ok l =>
        rw [htail] at h
        cases h
        cases hk : s.type with
        | Script =>
          rw [hk] at htail
          have hcm1 : (applyScore cm SettingsKind.Script
              (score_items ttd cm
                (fdiv (.fin 100)
                  (.fin ((items.foldl (fun acc it => acc + it.score_weight) 0 : ℤ) : ℚ)))
                items itd).2.2).employee_quality_score = 0 := by
            rw [applyScore_script_keeps_quality]
            exact hz
          rw [ih _ (mapRemove sti s.id) _ l htail hcm1]
          simp [hk]
        | Quality =>
          rw [hk] at htail
          by_cases ht : (score_items ttd cm
                (fdiv (.fin 100)
                  (.fin ((items.foldl (fun acc it => acc + it.score_weight) 0 : ℤ) : ℚ)))
                items itd).2.2 = 0
          · have hcm1 : (applyScore cm SettingsKind.Quality
                (score_items ttd cm
                (fdiv (.fin 100)
                  (.fin ((items.foldl (fun acc it => acc + it.score_weight) 0 : ℤ) : ℚ)))
                items itd).2.2).employee_quality_score = 0 := by
              rw [applyScore_quality_writes cm _ hz]
              exact ht
            rw [ih _ (mapRemove sti s.id) _ l htail hcm1]
            simp [hk, ht]
          · have hcm1 : (applyScore cm SettingsKind.Quality
                (score_items ttd cm
                (fdiv (.fin 100)
                  (.fin ((items.foldl (fun acc it => acc + it.score_weight) 0 : ℤ) : ℚ)))
                items itd).2.2).employee_quality_score ≠ 0 := by
              rw [applyScore_quality_writes cm _ hz]
              exact ht
            rw [settingsLoop_quality_nonzero ttd rest _ (mapRemove sti s.id) _ hcm1,
              applyScore_quality_writes cm _ hz]
            simp [hk, ht]

/-- One write-once update, followed by any loop suffix, absorbs a repeat of
the same update. -/
lemma applyScore_stable (ttd : ℤ → Option Bool) (rest : List Settings)
    (itd1 : ℕ → Option (List SettingsDictItem)) (sti1 : ℕ → Option (List SettingsItem))
    (x : CallMetrics) (k : SettingsKind) (t : ℤ) :
    applyScore ((settingsLoop ttd rest itd1 sti1 (applyScore x k t)).2) k t =
      (settingsLoop ttd rest itd1 sti1 (applyScore x k t)).2 := by
  cases k with
  | Script =>
    by_cases hxs : x.script_score = 0
    · by_cases ht : t = 0
      · subst ht
        rw [applyScore_zero]
      · have hx1s : (applyScore x SettingsKind.Script t).script_score = t := by
          simp [applyScore, hxs]
        have hxf : (settingsLoop ttd rest itd1 sti1
            (applyScore x SettingsKind.Script t)).2.script_score = t := by
          rw [settingsLoop_script_nonzero ttd rest itd1 sti1 _ (by rw [hx1s]; exact ht), hx1s]
        rw [applyScore]
        simp [hxf, ht]
    · have hx1 : applyScore x SettingsKind.Script t = x := by
        rw [applyScore]
        simp [hxs]
      have hxf : (settingsLoop ttd rest itd1 sti1
          (applyScore x SettingsKind.Script t)).2.script_score = x.script_score := by
        rw [hx1, settingsLoop_script_nonzero ttd rest itd1 sti1 x hxs]
      rw [applyScore]
      simp [hxf, hxs]
  | Quality =>
    by_cases hxs : x.employee_quality_score = 0
    · by_cases ht : t = 0
      · subst ht
        rw [applyScore_zero]
      · have hx1s : (applyScore x SettingsKind.Quality t).employee_quality_score = t := by
          simp [applyScore, hxs]
        have hxf : (settingsLoop ttd rest itd1 sti1
            (applyScore x SettingsKind.Quality t)).2.employee_quality_score = t := by
          rw [settingsLoop_quality_nonzero ttd rest itd1 sti1 _ (by rw [hx1s]; exact ht), hx1s]
        rw [applyScore]
        simp [hxf, ht]
    · have hx1 : applyScore x SettingsKind.Quality t = x := by
        rw [applyScore]
        simp [hxs]
      have hxf : (settingsLoop ttd rest itd1 sti1
          (applyScore x SettingsKind.Quality t)).2.employee_quality_score =
          x.employee_quality_score := by
        rw [hx1, settingsLoop_quality_nonzero ttd rest itd1 sti1 x hxs]
      rw [applyScore]
      simp [hxf, hxs]

/-- Re-running the scoring loop on its own output leaves both score fields
unchanged. -/
lemma settingsLoop_stable (ttd : ℤ → Option Bool) :
    ∀ (ss : List Settings) (itd : ℕ → Option (List SettingsDictItem))
      (sti : ℕ → Option (List SettingsItem)) (x : CallMetrics),
      (settingsLoop ttd ss itd sti (settingsLoop ttd ss itd sti x).2).2.script_score =
        (settingsLoop ttd ss itd sti x).2.script_score ∧
      (settingsLoop ttd ss itd sti
          (settingsLoop ttd ss itd sti x).2).2.employee_quality_score =
        (settingsLoop ttd ss itd sti x).2.employee_quality_score := by
  intro ss
  induction ss with
  | nil => intro itd sti x; exact ⟨rfl, rfl⟩
  | cons s rest ih =>
    intro itd sti x
    cases hsti : sti s.id with
    | none => constructor <;> simp [settingsLoop, hsti]
    | some items =>
      have hstep : ∀ (cm : CallMetrics), eraseScores cm = eraseScores x →
          (settingsLoop ttd (s :: rest) itd sti cm).2 =
            (settingsLoop ttd rest
              (score_items ttd x
                (fdiv (.fin 100)
                  (.fin ((items.foldl (fun acc it => acc + it.score_weight) 0 : ℤ) : ℚ)))
                items itd).1
              (mapRemove sti s.id)
              (applyScore cm s.type
                (score_items ttd x
                  (fdiv (.fin 100)
                    (.fin ((items.foldl (fun acc it => acc + it.score_weight) 0 : ℤ) : ℚ)))
                  items itd).2.2)).2 := by
        intro cm hcm
        simp only [settingsLoop, hsti, score_items_congr hcm]
      have hx1 := hstep x rfl
      have hrun2 := hstep ((settingsLoop ttd (s :: rest) itd sti x).2)
        (settingsLoop_eraseScores ttd (s :: rest) itd sti x)
      have hy1 : applyScore ((settingsLoop ttd (s :: rest) itd sti x).2) s.type
          (score_items ttd x
            (fdiv (.fin 100)
              (.fin ((items.foldl (fun acc it => acc + it.score_weight) 0 : ℤ) : ℚ)))
            items itd).2.2 =
          (settingsLoop ttd (s :: rest) itd sti x).2 := by
        rw [hx1]
        exact applyScore_stable ttd rest _ (mapRemove sti s.id) x s.type _
      rw [hrun2, hy1, hx1]
      exact ih _ (mapRemove sti s.id) _

/-- C8: write-once, idempotent scoring.  (i) On a successful run starting
from a metrics row whose field for a kind (Script or Quality) is still at its
zero default, the categories of that kind write their totals in order, each
exactly when the field is still zero, so the field ends as the total of the
first category of that kind with a nonzero total (`0` when there is none);
(ii) a nonzero field is never changed by a scoring run; (iii) therefore
running `calculate_settings_metrics` twice on the same row leaves
`script_score` and `employee_quality_score` exactly as after the first run. -/
theorem calculate_settings_metrics_write_once (task_to_dicts : List TaskToDict)
    (call_metrics : CallMetrics) (settings : List Settings)
    (settings_items : List SettingsItem) (settings_dict_items : List SettingsDictItem) :
    (∀ (results : List TaskSettingsMetrics),
      (calculate_settings_metrics task_to_dicts call_metrics settings settings_items
          settings_dict_items).1 = .ok results →
      call_metrics.script_score = 0 →
      (calculate_settings_metrics task_to_dicts call_metrics settings settings_items
          settings_dict_items).2.script_score =
        ((((results.filter (fun t => t.settings.type = SettingsKind.Script)).map
            (fun t => t.total_score)).find? (fun t => decide (t ≠ 0))).getD 0)) ∧
    (∀ (results : List TaskSettingsMetrics),
      (calculate_settings_metrics task_to_dicts call_metrics settings settings_items
          settings_dict_items).1 = .ok results →
      call_metrics.employee_quality_score = 0 →
      (calculate_settings_metrics task_to_dicts call_metrics settings settings_items
          settings_dict_items).2.employee_quality_score =
        ((((results.filter (fun t => t.settings.type = SettingsKind.Quality)).map
            (fun t => t.total_score)).find? (fun t => decide (t ≠ 0))).getD 0)) ∧
    (call_metrics.script_score ≠ 0 →
      (calculate_settings_metrics task_to_dicts call_metrics settings settings_items
          settings_dict_items).2.script_score = call_metrics.script_score) ∧
    (call_metrics.employee_quality_score ≠ 0 →
      (calculate_settings_metrics task_to_dicts call_metrics settings settings_items
          settings_dict_items).2.employee_quality_score =
        call_metrics.employee_quality_score) ∧
    ((calculate_settings_metrics task_to_dicts
        (calculate_settings_metrics task_to_dicts call_metrics settings settings_items
          settings_dict_items).2
        settings settings_items settings_dict_items).2.script_score =
      (calculate_settings_metrics task_to_dicts call_metrics settings settings_items
        settings_dict_items).2.script_score ∧
     (calculate_settings_metrics task_to_dicts
        (calculate_settings_metrics task_to_dicts call_metrics settings settings_items
          settings_dict_items).2
        settings settings_items settings_dict_items).2.employee_quality_score =
      (calculate_settings_metrics task_to_dicts call_metrics settings settings_items
        settings_dict_items).2.employee_quality_score) := by
  refine ⟨?_, ?_, ?_, ?_, ?_⟩
  · intro results h hz
    exact settingsLoop_script_first_write _ settings _ _ call_metrics results h hz
  · intro results h hz
    exact settingsLoop_quality_first_write _ settings _ _ call_metrics results h hz
  · intro h
    exact settingsLoop_script_nonzero _ settings _ _ call_metrics h
  · intro h
    exact settingsLoop_quality_nonzero _ settings _ _ call_metrics h
  · exact settingsLoop_stable (hmFromTaskToDicts task_to_dicts) settings
      (group_by settings_dict_items (fun it => it.settings_item_id))
      (group_by settings_items (fun it => it.settings_id)) call_metrics

/-- Witness for C8: scoring one Script category (weights 2 and 1, total 99)
against an all-zero metrics row writes 99 into `script_score`. -/
theorem calculate_settings_metrics_write_once_witness :
    (calculate_settings_metrics [] testMetrics [⟨1, 0, SettingsKind.Script⟩]
        [⟨10, 1, true, .CallHolds, "a", 2⟩, ⟨11, 1, true, .CallHolds, "b", 1⟩]
        []).2.script_score = 99 :=
  ((calculate_settings_metrics_write_once [] testMetrics [⟨1, 0, SettingsKind.Script⟩]
      [⟨10, 1, true, .CallHolds, "a", 2⟩, ⟨11, 1, true, .CallHolds, "b", 1⟩] []).1
    [⟨⟨1, 0, SettingsKind.Script⟩, 99,
      [⟨⟨10, 1, true, .CallHolds, "a", 2⟩, 66⟩,
       ⟨⟨11, 1, true, .CallHolds, "b", 1⟩, 33⟩]⟩]
    (by decide) (by decide)).trans (by decide)

end CallAI
